import Mathlib

/-!
Shallow embedding of the ingestion pipeline of `src/streamlit_app.py`
(repository dimopage/streamlit-astradb-rag).

The script is sequential glue: for each uploaded file it hashes the bytes,
checks a metadata collection for a prior (filename, hash) record, writes the
bytes to a temporary file, dispatches on the declared MIME type to a loader,
tags the loaded documents with metadata, inserts a metadata record, and
deletes the temporary file; after the per-file loop it splits the accumulated
documents into chunks, initializes the embedding model and the vector store,
and writes the chunks.  We embed this control flow as a state machine over an
explicit event trace; the external collaborators (document loaders, the
embedding service, the vector database) are abstracted as an environment of
oracles, exactly at the call boundaries the script uses.

The UI/configuration code above line 224 of the script (CSS, namespace and
collection selection, secrets) is outside every claim and is not embedded.
-/

namespace StreamlitRag

/-- An uploaded file: declared name, declared MIME type, raw byte content
(`st.file_uploader` item; `file.name`, `file.type`, `file.getvalue()`). -/
structure UploadedFile where
  name : String
  type : String
  content : List Char
  deriving DecidableEq, Repr

/-- Modelled from the spec: `hashlib.sha256(...).hexdigest()` is an external
library call whose body is not in `src/`.  The spec's ContentFingerprint
invariant is that the digest is a deterministic function of the bytes with
identical bytes yielding identical fingerprints; we model it as the identity
on the byte sequence, which is deterministic and injective. -/
def sha256Hex (content : List Char) : List Char := content

/-- A record of the `file_metadata` collection, as inserted by
`metadata_store._collection.insert_one` (lines 265-270 of the script). -/
structure MetaRec where
  filename : String
  file_hash : List Char
  upload_date : String
  collection_name : String
  deriving DecidableEq, Repr

/-- A langchain document: page content plus a metadata mapping.  Metadata is
an association list looked up by first match; `dict.update` is modelled by
prepending the overriding keys. -/
structure Doc where
  pageContent : List Char
  metadata : List (String × String)
  deriving DecidableEq, Repr

/-- First-match lookup in a metadata mapping (Python `dict` access). -/
def getMeta (k : String) (m : List (String × String)) : Option String :=
  (m.find? (fun kv => kv.1 == k)).map (fun kv => kv.2)

/-- The script's `doc.metadata.update({filename, upload_date, file_type,
file_hash})` (lines 256-261): the four keys now map to the new values, all
other keys keep their values. -/
def metaUpdate (f : UploadedFile) (h : List Char) (now : String)
    (m : List (String × String)) : List (String × String) :=
  ("filename", f.name) :: ("upload_date", now) :: ("file_type", f.type)
    :: ("file_hash", String.mk h) :: m

/-- The loader chosen by the MIME dispatch of lines 244-249:
`application/pdf ↦ PyPDFLoader`, `text/plain` and `text/markdown ↦
TextLoader`, `application/json ↦ UnstructuredFileLoader`, else unsupported. -/
inductive LoaderKind where
  | pypdf
  | textLoader
  | unstructured
  deriving DecidableEq, Repr

/-- MIME dispatch of lines 244-251; `none` is the `else` branch that warns
"Unsupported file type" and continues. -/
def pickLoader (t : String) : Option LoaderKind :=
  if t == "application/pdf" then some LoaderKind.pypdf
  else if t == "text/plain" || t == "text/markdown" then some LoaderKind.textLoader
  else if t == "application/json" then some LoaderKind.unstructured
  else none

/-- Outcome of `loader.load()` on the temporary copy of a file: a list of
documents, or a raised exception (malformed content). -/
inductive LoadResult where
  | ok (docs : List Doc)
  | err
  deriving DecidableEq, Repr

/-- The external collaborators, abstracted at the exact call boundaries the
script uses: parser behavior per loader and file, the wall clock read by
`datetime.now().isoformat()`, and success of `HuggingFaceEmbeddings(...)`,
`AstraDBVectorStore(...)` and `vectorstore.add_documents(...)`. -/
structure Env where
  load : LoaderKind → UploadedFile → LoadResult
  now : String
  embedInitOk : Bool
  vectorInitOk : Bool
  addDocsOk : Bool

/-- Observable events of one run, in program order: Streamlit messages,
temporary-file lifecycle, metadata inserts, external initializations, the
vector-store write, `st.stop()`, and an uncaught exception escaping the
script (`loadCrash`). -/
inductive Ev where
  | dupSkip (name : String)
  | tmpCreate (name : String)
  | tmpDelete (name : String)
  | unsupportedWarn (t : String)
  | metaInsert (name : String) (h : List Char)
  | loadCrash (name : String)
  | embedInit
  | embedInitError
  | vectorInit
  | vectorInitError
  | vectorAdd (n : Nat)
  | successMsg
  | storeError
  | noDocsWarn
  | infoUpload
  | halt
  deriving DecidableEq, Repr

/-- State threaded through the run: contents of the `file_metadata`
collection, the accumulated `documents` list, the chunks actually written by
`add_documents`, the event trace, and whether the script was stopped
(`st.stop()`) or aborted by an uncaught exception. -/
structure PState where
  records : List MetaRec
  documents : List Doc
  stored : List Doc
  events : List Ev
  halted : Bool
  crashed : Bool
  deriving DecidableEq, Repr

/-- Initial state of a run: the metadata collection may already hold records
from earlier sessions (`prior`); everything else is empty. -/
def initState (prior : List MetaRec) : PState :=
  { records := prior, documents := [], stored := [], events := [],
    halted := false, crashed := false }

/-- The duplicate check of lines 232-233:
`metadata_store._collection.find({"filename": file.name, "file_hash":
file_hash})` has a positive count.  A read-only query. -/
def isDuplicate (records : List MetaRec) (name : String) (h : List Char) : Bool :=
  records.any (fun r => r.filename == name && r.file_hash == h)

/-- One iteration of the `for file in uploaded_files` loop (lines 226-272):
hash, duplicate check (`continue` on hit), temporary file creation, MIME
dispatch (`continue` with a warning on unsupported types), `loader.load()`,
metadata tagging, `documents.extend`, metadata insert, and the `finally:`
deletion of the temporary file — which also runs when the `continue` of the
unsupported branch fires and when `loader.load()` raises, in which case the
exception then propagates (`crashed`). -/
def processFile (env : Env) (s : PState) (f : UploadedFile) : PState :=
  let h := sha256Hex f.content
  if isDuplicate s.records f.name h then
    { s with events := s.events ++ [Ev.dupSkip f.name] }
  else
    let s1 : PState := { s with events := s.events ++ [Ev.tmpCreate f.name] }
    match pickLoader f.type with
    | none =>
        { s1 with events := s1.events ++ [Ev.unsupportedWarn f.type, Ev.tmpDelete f.name] }
    | some k =>
        match env.load k f with
        | LoadResult.err =>
            { s1 with
              events := s1.events ++ [Ev.tmpDelete f.name, Ev.loadCrash f.name],
              crashed := true }
        | LoadResult.ok docs =>
            let docs' := docs.map (fun d =>
              { d with metadata := metaUpdate f h env.now d.metadata })
            { s1 with
              documents := s1.documents ++ docs',
              records := s1.records ++
                [{ filename := f.name, file_hash := h, upload_date := env.now,
                   collection_name := "rag_default" }],
              events := s1.events ++ [Ev.metaInsert f.name h, Ev.tmpDelete f.name] }

/-- The per-file loop.  An exception raised inside an iteration propagates
out of the loop, so no later file is processed once `crashed` is set. -/
def processFiles (env : Env) (s : PState) : List UploadedFile → PState
  | [] => s
  | f :: fs =>
      let s' := processFile env s f
      if s'.crashed then s' else processFiles env s' fs

/-- Modelled from the spec: the script delegates chunking to
`RecursiveCharacterTextSplitter(chunk_size=2500, chunk_overlap=250)`, a
third-party langchain class whose implementation is not in `src/`.  The
spec's Chunker contract (section 4.4) is embedded directly: chunks of at most
2500 characters, consecutive chunks overlapping by exactly 250 characters
(so the window advances by 2500 - 250 = 2250 characters), empty input
yielding an empty chunk sequence. -/
def chunkTextF (fuel : Nat) (s : List Char) : List (List Char) :=
  match fuel with
  | 0 => []
  | fuel + 1 =>
      if s.length ≤ 2500 then (if s.isEmpty then [] else [s])
      else s.take 2500 :: chunkTextF fuel (s.drop 2250)

/-- The chunk sequence of one text (see `chunkTextF`; the fuel `s.length` is
enough because every recursive step removes 2250 characters). -/
def chunkText (s : List Char) : List (List Char) := chunkTextF s.length s

/-- Modelled from the spec: chunking one document — every chunk of the page
content carries the originating document's metadata unchanged ("each chunk
retains the originating document's metadata", spec section 4.4). -/
def splitDoc (d : Doc) : List Doc :=
  (chunkText d.pageContent).map (fun c => { pageContent := c, metadata := d.metadata })

/-- Modelled from the spec: `text_splitter.split_documents(documents)` (line
277) — each document is chunked independently, in order. -/
def splitDocuments (ds : List Doc) : List Doc :=
  ds.flatMap splitDoc

/-- The tail of the run after the per-file loop (lines 274-306): if any
documents were accumulated, split them into chunks, initialize
`HuggingFaceEmbeddings` (on failure `st.error` + `st.stop()`), initialize
`AstraDBVectorStore` (on failure `st.error` + `st.stop()`), then
`vectorstore.add_documents(chunks)` with `st.success` on success and
`st.error` on failure; otherwise warn "No new documents were processed".
Unreached when an uncaught loader exception already aborted the script. -/
def finishBatch (env : Env) (s : PState) : PState :=
  if s.crashed then s
  else if s.documents.isEmpty then
    { s with events := s.events ++ [Ev.noDocsWarn] }
  else
    let chunks := splitDocuments s.documents
    if env.embedInitOk then
      let s1 : PState := { s with events := s.events ++ [Ev.embedInit] }
      if env.vectorInitOk then
        let s2 : PState := { s1 with events := s1.events ++ [Ev.vectorInit] }
        if env.addDocsOk then
          { s2 with
            stored := s2.stored ++ chunks,
            events := s2.events ++ [Ev.vectorAdd chunks.length, Ev.successMsg] }
        else
          { s2 with events := s2.events ++ [Ev.storeError] }
      else
        { s1 with events := s1.events ++ [Ev.vectorInitError, Ev.halt], halted := true }
    else
      { s with events := s.events ++ [Ev.embedInitError, Ev.halt], halted := true }

/-- The whole `if uploaded_files:` block (lines 224-308): process every file,
then run the batch tail; with no uploads, `st.info` asks for documents. -/
def runApp (env : Env) (prior : List MetaRec) (files : List UploadedFile) : PState :=
  if files.isEmpty then
    { initState prior with events := [Ev.infoUpload] }
  else
    finishBatch env (processFiles env (initState prior) files)

/-! Concrete fixtures used to exercise the model on closed inputs. -/

/-- A parser oracle that succeeds on every file, returning one document whose
page content is the file's bytes (as a text loader does) with one
loader-provided metadata key. -/
def echoLoad : LoaderKind → UploadedFile → LoadResult :=
  fun _ f => LoadResult.ok [{ pageContent := f.content, metadata := [("source", "tmp")] }]

/-- A parser oracle that raises on the file named `bad.txt` (malformed
content) and behaves like `echoLoad` elsewhere. -/
def errLoad : LoaderKind → UploadedFile → LoadResult :=
  fun k f => if f.name == "bad.txt" then LoadResult.err else echoLoad k f

/-- Environment where every external collaborator succeeds. -/
def envOk : Env :=
  { load := echoLoad, now := "2026-10-12T00:00:00", embedInitOk := true,
    vectorInitOk := true, addDocsOk := true }

/-- Environment where `vectorstore.add_documents` raises. -/
def envNoStore : Env := { envOk with addDocsOk := false }

/-- Environment where `HuggingFaceEmbeddings(...)` raises. -/
def envNoEmbed : Env := { envOk with embedInitOk := false }

/-- Environment whose parser raises on `bad.txt`. -/
def envBadFile : Env := { envOk with load := errLoad }

/-- A small plain-text upload. -/
def fileA : UploadedFile := { name := "a.txt", type := "text/plain", content := ['x'] }

/-- A second upload with the same bytes as `fileA` but a different name. -/
def fileB : UploadedFile := { name := "b.txt", type := "text/plain", content := ['x'] }

/-- An upload whose content the parser rejects. -/
def fileBad : UploadedFile := { name := "bad.txt", type := "text/plain", content := ['y'] }

/-- An upload with an unsupported declared MIME type. -/
def fileZip : UploadedFile := { name := "z.zip", type := "application/zip", content := ['z'] }

/-- A 2600-character text, long enough to yield two chunks. -/
def bigText : List Char := List.replicate 2600 'a'

/-- A metadata record matching `fileA`, as a prior session would leave it. -/
def recA : MetaRec :=
  { filename := "a.txt", file_hash := ['x'],
    upload_date := "2026-10-12T00:00:00", collection_name := "rag_default" }

/-- The chunk that storing `fileA` through `envOk` produces. -/
def wDoc : Doc :=
  { pageContent := ['x'],
    metadata := [("filename", "a.txt"), ("upload_date", "2026-10-12T00:00:00"),
      ("file_type", "text/plain"), ("file_hash", "x"), ("source", "tmp")] }

/-- The last `n` elements of a list. -/
def lastN (n : Nat) (l : List Char) : List Char := l.drop (l.length - n)

/-- Events that the per-file loop can emit; the tail of the run (chunking,
embedding, vector store) emits only events outside this class. -/
def fileEv : Ev → Bool
  | Ev.dupSkip _ => true
  | Ev.tmpCreate _ => true
  | Ev.tmpDelete _ => true
  | Ev.unsupportedWarn _ => true
  | Ev.metaInsert _ _ => true
  | Ev.loadCrash _ => true
  | _ => false

/-! Chunker lemmas. -/

/-- Fuel irrelevance for `chunkTextF`: any fuel at least the text length
computes the same chunk sequence. -/
theorem chunkTextF_congr (fuel1 : Nat) : ∀ (fuel2 : Nat) (s : List Char),
    s.length ≤ fuel1 → s.length ≤ fuel2 → chunkTextF fuel1 s = chunkTextF fuel2 s := by
  induction fuel1 with
  | zero =>
      intro fuel2 s h1 _
      have hs : s = [] := List.eq_nil_of_length_eq_zero (Nat.le_zero.mp h1)
      subst hs
      cases fuel2 <;> simp [chunkTextF]
  | succ n ih =>
      intro fuel2 s h1 h2
      cases fuel2 with
      | zero =>
          have hs : s = [] := List.eq_nil_of_length_eq_zero (Nat.le_zero.mp h2)
          subst hs
          simp [chunkTextF]
      | succ m =>
          simp only [chunkTextF]
          by_cases hle : s.length ≤ 2500
          · simp [hle]
          · simp only [hle, if_false]
            have hd : (s.drop 2250).length = s.length - 2250 := List.length_drop ..
            have hrec : chunkTextF n (s.drop 2250) = chunkTextF m (s.drop 2250) := by
              apply ih
              · omega
              · omega
            rw [hrec]

/-- Unfolding equation for `chunkText`, matching the spec's description of
the chunker: short texts give a single chunk (none for the empty text), long
texts give a 2500-character chunk and recurse 2250 characters further on. -/
theorem chunkText_eq (s : List Char) :
    chunkText s = if s.length ≤ 2500 then (if s.isEmpty then [] else [s])
      else s.take 2500 :: chunkText (s.drop 2250) := by
  unfold chunkText
  cases s with
  | nil => simp [chunkTextF]
  | cons a t =>
      simp only [List.length_cons, chunkTextF]
      by_cases hle : t.length + 1 ≤ 2500
      · simp [hle]
      · simp only [hle, if_false]
        have hd : ((a :: t).drop 2250).length = t.length + 1 - 2250 := by
          simp [List.length_drop]
        have : chunkTextF t.length ((a :: t).drop 2250)
            = chunkTextF ((a :: t).drop 2250).length ((a :: t).drop 2250) := by
          apply chunkTextF_congr
          · omega
          · omega
        rw [this]

/-- Every chunk the chunker produces has at most 2500 characters. -/
theorem chunkTextF_length_le (fuel : Nat) :
    ∀ (s : List Char), ∀ c ∈ chunkTextF fuel s, c.length ≤ 2500 := by
  induction fuel with
  | zero => intro s c hc; simp [chunkTextF] at hc
  | succ n ih =>
      intro s c hc
      simp only [chunkTextF] at hc
      by_cases hle : s.length ≤ 2500
      · rw [if_pos hle] at hc
        by_cases he : s.isEmpty
        · simp [he] at hc
        · simp [he] at hc
          subst hc
          exact hle
      · rw [if_neg hle] at hc
        rcases List.mem_cons.mp hc with hc | hc
        · subst hc
          have := List.length_take 2500 s
          omega
        · exact ih (s.drop 2250) c hc

/-- The first 250 characters of the first chunk are the first 250 characters
of the text itself. -/
theorem chunkTextF_head_take (fuel : Nat) :
    ∀ (s : List Char), s ≠ [] → s.length ≤ fuel →
      ((chunkTextF fuel s).getD 0 []).take 250 = s.take 250 := by
  induction fuel with
  | zero =>
      intro s hne hlen
      exact absurd (List.eq_nil_of_length_eq_zero (Nat.le_zero.mp hlen)) hne
  | succ n _ =>
      intro s hne _
      simp only [chunkTextF]
      by_cases hle : s.length ≤ 2500
      · have he : s.isEmpty = false := by
          cases s with
          | nil => exact absurd rfl hne
          | cons a t => rfl
        simp [hle, he]
      · simp only [hle, if_false]
        simp [List.take_take]

/-- Overlap of consecutive chunks: the last 250 characters of a chunk are
the first 250 characters of the next chunk. -/
theorem chunkTextF_overlap (fuel : Nat) :
    ∀ (s : List Char), s.length ≤ fuel → ∀ i : Nat,
      i + 1 < (chunkTextF fuel s).length →
      lastN 250 ((chunkTextF fuel s).getD i []) =
        ((chunkTextF fuel s).getD (i + 1) []).take 250 := by
  induction fuel with
  | zero => intro s _ i hi; simp [chunkTextF] at hi
  | succ n ih =>
      intro s hs i hi
      simp only [chunkTextF] at hi ⊢
      by_cases hle : s.length ≤ 2500
      · rw [if_pos hle] at hi
        by_cases he : s.isEmpty
        · simp [he] at hi
        · simp [he] at hi
      · rw [if_neg hle] at hi ⊢
        have hslen : 2500 < s.length := Nat.lt_of_not_le hle
        have hdlen : (s.drop 2250).length = s.length - 2250 := List.length_drop ..
        cases i with
        | zero =>
            simp only [List.getD_cons_zero, List.getD_cons_succ]
            have hne : s.drop 2250 ≠ [] := by
              intro h
              rw [h] at hdlen
              simp at hdlen
              omega
            rw [chunkTextF_head_take n (s.drop 2250) hne (by omega)]
            have htl : (s.take 2500).length = 2500 := by
              have := List.length_take 2500 s
              omega
            unfold lastN
            rw [htl]
            have : (2500 : Nat) - 250 = 2250 := by norm_num
            rw [this, List.drop_take]
        | succ j =>
            simp only [List.getD_cons_succ] at hi ⊢
            simp only [List.length_cons] at hi
            exact ih (s.drop 2250) (by omega) j (by omega)

/-! Per-file branch equations, read off the four control paths of the loop
body (duplicate `continue`, unsupported `continue`, loader exception,
success). -/

/-- Duplicate hit (lines 232-235): the only effect is the warning; the
metadata collection, the documents list and every other component of the
state are untouched — the check is read-only. -/
theorem processFile_dup (env : Env) (s : PState) (f : UploadedFile)
    (h : isDuplicate s.records f.name (sha256Hex f.content) = true) :
    processFile env s f = { s with events := s.events ++ [Ev.dupSkip f.name] } := by
  simp [processFile, h]

/-- Unsupported MIME type (lines 250-252): temporary file created and
deleted, a warning emitted, nothing else changes. -/
theorem processFile_unsupported (env : Env) (s : PState) (f : UploadedFile)
    (hnd : isDuplicate s.records f.name (sha256Hex f.content) = false)
    (hp : pickLoader f.type = none) :
    processFile env s f = { s with events := s.events ++
      [Ev.tmpCreate f.name, Ev.unsupportedWarn f.type, Ev.tmpDelete f.name] } := by
  simp [processFile, hnd, hp]

/-- Loader exception (malformed content): the `finally:` deletes the
temporary file, then the exception escapes the loop. -/
theorem processFile_loadErr (env : Env) (s : PState) (f : UploadedFile) (k : LoaderKind)
    (hnd : isDuplicate s.records f.name (sha256Hex f.content) = false)
    (hk : pickLoader f.type = some k)
    (hl : env.load k f = LoadResult.err) :
    processFile env s f = { s with
      events := s.events ++ [Ev.tmpCreate f.name, Ev.tmpDelete f.name, Ev.loadCrash f.name],
      crashed := true } := by
  simp [processFile, hnd, hk, hl]

/-- Successful load (lines 253-270): the tagged documents are appended and
the metadata record inserted, before any vector-store interaction. -/
theorem processFile_ok (env : Env) (s : PState) (f : UploadedFile) (k : LoaderKind)
    (docs : List Doc)
    (hnd : isDuplicate s.records f.name (sha256Hex f.content) = false)
    (hk : pickLoader f.type = some k)
    (hl : env.load k f = LoadResult.ok docs) :
    processFile env s f = { s with
      documents := s.documents ++ docs.map (fun d =>
        { d with metadata := metaUpdate f (sha256Hex f.content) env.now d.metadata }),
      records := s.records ++
        [{ filename := f.name,
           file_hash := sha256Hex f.content,
           upload_date := env.now,
           collection_name := "rag_default" }],
      events := s.events ++ [Ev.tmpCreate f.name,
        Ev.metaInsert f.name (sha256Hex f.content), Ev.tmpDelete f.name] } := by
  simp [processFile, hnd, hk, hl]

/-- The per-file loop never writes to the vector collection. -/
theorem processFile_stored (env : Env) (s : PState) (f : UploadedFile) :
    (processFile env s f).stored = s.stored := by
  cases hd : isDuplicate s.records f.name (sha256Hex f.content) with
  | true => rw [processFile_dup env s f hd]
  | false =>
      cases hp : pickLoader f.type with
      | none => rw [processFile_unsupported env s f hd hp]
      | some k =>
          cases hl : env.load k f with
          | err => rw [processFile_loadErr env s f k hd hp hl]
          | ok docs => rw [processFile_ok env s f k docs hd hp hl]

/-- One loop iteration only appends per-file events to the trace. -/
theorem processFile_events_file (env : Env) (s : PState) (f : UploadedFile) :
    ∃ t, (processFile env s f).events = s.events ++ t ∧ ∀ e ∈ t, fileEv e = true := by
  cases hd : isDuplicate s.records f.name (sha256Hex f.content) with
  | true =>
      rw [processFile_dup env s f hd]
      exact ⟨[Ev.dupSkip f.name], rfl, by simp [fileEv]⟩
  | false =>
      cases hp : pickLoader f.type with
      | none =>
          rw [processFile_unsupported env s f hd hp]
          exact ⟨[Ev.tmpCreate f.name, Ev.unsupportedWarn f.type, Ev.tmpDelete f.name],
            rfl, by simp [fileEv]⟩
      | some k =>
          cases hl : env.load k f with
          | err =>
              rw [processFile_loadErr env s f k hd hp hl]
              exact ⟨[Ev.tmpCreate f.name, Ev.tmpDelete f.name, Ev.loadCrash f.name],
                rfl, by simp [fileEv]⟩
          | ok docs =>
              rw [processFile_ok env s f k docs hd hp hl]
              exact ⟨[Ev.tmpCreate f.name, Ev.metaInsert f.name (sha256Hex f.content),
                Ev.tmpDelete f.name], rfl, by simp [fileEv]⟩

/-- The metadata collection only grows during the loop. -/
theorem processFile_records_grow (env : Env) (s : PState) (f : UploadedFile) :
    ∃ l, (processFile env s f).records = s.records ++ l := by
  cases hd : isDuplicate s.records f.name (sha256Hex f.content) with
  | true => rw [processFile_dup env s f hd]; exact ⟨[], by simp⟩
  | false =>
      cases hp : pickLoader f.type with
      | none => rw [processFile_unsupported env s f hd hp]; exact ⟨[], by simp⟩
      | some k =>
          cases hl : env.load k f with
          | err => rw [processFile_loadErr env s f k hd hp hl]; exact ⟨[], by simp⟩
          | ok docs =>
              rw [processFile_ok env s f k docs hd hp hl]
              exact ⟨_, rfl⟩

/-- Every document accumulated by one loop iteration that was not already
present carries the processed file's name and declared type in its
metadata. -/
theorem processFile_documents_meta (env : Env) (s : PState) (f : UploadedFile) :
    ∀ d ∈ (processFile env s f).documents, d ∈ s.documents ∨
      (getMeta "filename" d.metadata = some f.name ∧
        getMeta "file_type" d.metadata = some f.type) := by
  intro d hd'
  cases hd : isDuplicate s.records f.name (sha256Hex f.content) with
  | true =>
      rw [processFile_dup env s f hd] at hd'
      exact Or.inl hd'
  | false =>
      cases hp : pickLoader f.type with
      | none =>
          rw [processFile_unsupported env s f hd hp] at hd'
          exact Or.inl hd'
      | some k =>
          cases hl : env.load k f with
          | err =>
              rw [processFile_loadErr env s f k hd hp hl] at hd'
              exact Or.inl hd'
          | ok docs =>
              rw [processFile_ok env s f k docs hd hp hl] at hd'
              simp only [List.mem_append] at hd'
              rcases hd' with hd' | hd'
              · exact Or.inl hd'
              · right
                simp only [List.mem_map] at hd'
                obtain ⟨d0, _, hmap⟩ := hd'
                subst hmap
                constructor
                · simp [getMeta, metaUpdate]
                · simp [getMeta, metaUpdate]

/-- The loop over files appends only per-file events. -/
theorem processFiles_events_file (env : Env) : ∀ (fs : List UploadedFile) (s : PState),
    ∃ t, (processFiles env s fs).events = s.events ++ t ∧ ∀ e ∈ t, fileEv e = true := by
  intro fs
  induction fs with
  | nil => intro s; exact ⟨[], by simp [processFiles], by simp⟩
  | cons f fs ih =>
      intro s
      obtain ⟨t1, h1, hf1⟩ := processFile_events_file env s f
      simp only [processFiles]
      by_cases hc : (processFile env s f).crashed = true
      case pos =>
          rw [if_pos hc]
          exact ⟨t1, h1, hf1⟩
      case neg =>
          rw [if_neg hc]
          obtain ⟨t2, h2, hf2⟩ := ih (processFile env s f)
          refine ⟨t1 ++ t2, ?_, ?_⟩
          · rw [h2, h1, List.append_assoc]
          · intro e he
            rcases List.mem_append.mp he with he | he
            · exact hf1 e he
            · exact hf2 e he

/-- The loop over files never writes to the vector collection. -/
theorem processFiles_stored (env : Env) : ∀ (fs : List UploadedFile) (s : PState),
    (processFiles env s fs).stored = s.stored := by
  intro fs
  induction fs with
  | nil => intro s; simp [processFiles]
  | cons f fs ih =>
      intro s
      simp only [processFiles]
      by_cases hc : (processFile env s f).crashed = true
      case pos => rw [if_pos hc]; exact processFile_stored env s f
      case neg =>
          rw [if_neg hc]
          rw [ih (processFile env s f)]
          exact processFile_stored env s f

/-- The metadata collection only grows across the loop. -/
theorem processFiles_records_grow (env : Env) : ∀ (fs : List UploadedFile) (s : PState),
    ∃ l, (processFiles env s fs).records = s.records ++ l := by
  intro fs
  induction fs with
  | nil => intro s; exact ⟨[], by simp [processFiles]⟩
  | cons f fs ih =>
      intro s
      simp only [processFiles]
      obtain ⟨l1, h1⟩ := processFile_records_grow env s f
      by_cases hc : (processFile env s f).crashed = true
      case pos => rw [if_pos hc]; exact ⟨l1, h1⟩
      case neg =>
          rw [if_neg hc]
          obtain ⟨l2, h2⟩ := ih (processFile env s f)
          exact ⟨l1 ++ l2, by rw [h2, h1, List.append_assoc]⟩

/-- Every document accumulated by the loop that was not initially present
carries the name and declared type of one of the processed files. -/
theorem processFiles_documents_meta (env : Env) : ∀ (fs : List UploadedFile) (s : PState),
    ∀ d ∈ (processFiles env s fs).documents, d ∈ s.documents ∨
      ∃ f ∈ fs, getMeta "filename" d.metadata = some f.name ∧
        getMeta "file_type" d.metadata = some f.type := by
  intro fs
  induction fs with
  | nil => intro s d hd; simp only [processFiles] at hd; exact Or.inl hd
  | cons f fs ih =>
      intro s d hd
      simp only [processFiles] at hd
      have step : ∀ d ∈ (processFile env s f).documents, d ∈ s.documents ∨
          ∃ g ∈ f :: fs, getMeta "filename" d.metadata = some g.name ∧
            getMeta "file_type" d.metadata = some g.type := by
        intro d' hd'
        rcases processFile_documents_meta env s f d' hd' with h | h
        · exact Or.inl h
        · exact Or.inr ⟨f, List.mem_cons_self .., h⟩
      by_cases hc : (processFile env s f).crashed = true
      case pos =>
          rw [if_pos hc] at hd
          exact step d hd
      case neg =>
          rw [if_neg hc] at hd
          rcases ih (processFile env s f) d hd with h | h
          · exact step d h
          · obtain ⟨g, hg, hmeta⟩ := h
            exact Or.inr ⟨g, List.mem_cons_of_mem f hg, hmeta⟩

/-- The batch tail never changes the accumulated documents, the metadata
collection, or the crash flag. -/
theorem finishBatch_preserves (env : Env) (s : PState) :
    (finishBatch env s).documents = s.documents ∧
    (finishBatch env s).records = s.records ∧
    (finishBatch env s).crashed = s.crashed := by
  unfold finishBatch
  by_cases h1 : s.crashed = true <;> by_cases h2 : s.documents.isEmpty = true <;>
    by_cases h3 : env.embedInitOk = true <;> by_cases h4 : env.vectorInitOk = true <;>
      by_cases h5 : env.addDocsOk = true <;>
        simp [h1, h2, h3, h4, h5]

/-- A one-file loop is just one iteration (the final crash check is moot). -/
theorem processFiles_one (env : Env) (s : PState) (f : UploadedFile) :
    processFiles env s [f] = processFile env s f := by
  simp [processFiles]

/-- When an iteration does not raise, the loop continues with the rest. -/
theorem processFiles_cons_step (env : Env) (s : PState) (f : UploadedFile)
    (fs : List UploadedFile) (h : (processFile env s f).crashed = false) :
    processFiles env s (f :: fs) = processFiles env (processFile env s f) fs := by
  simp [processFiles, h]

/-- When an iteration raises, the loop aborts: later files are untouched. -/
theorem processFiles_cons_crash (env : Env) (s : PState) (f : UploadedFile)
    (fs : List UploadedFile) (h : (processFile env s f).crashed = true) :
    processFiles env s (f :: fs) = processFile env s f := by
  simp [processFiles, h]

/-- Whatever the batch tail does, every stored chunk either was already
stored or is one of the chunks split from the accumulated documents. -/
theorem finishBatch_stored_sub (env : Env) (s : PState) :
    ∀ d ∈ (finishBatch env s).stored, d ∈ s.stored ∨ d ∈ splitDocuments s.documents := by
  intro d hd
  unfold finishBatch at hd
  by_cases h1 : s.crashed = true
  · simp [h1] at hd; exact Or.inl hd
  · by_cases h2 : s.documents.isEmpty = true
    · simp [h1, h2] at hd; exact Or.inl hd
    · by_cases h3 : env.embedInitOk = true
      · by_cases h4 : env.vectorInitOk = true
        · by_cases h5 : env.addDocsOk = true
          · simp [h1, h2, h3, h4, h5] at hd
            rcases hd with hd | hd
            · exact Or.inl hd
            · exact Or.inr hd
          · simp [h1, h2, h3, h4, h5] at hd; exact Or.inl hd
        · simp [h1, h2, h3, h4] at hd; exact Or.inl hd
      · simp [h1, h2, h3] at hd; exact Or.inl hd

/-- The stored chunks of the batch tail depend only on the incoming stored
chunks, documents and crash flag, not on the trace. -/
theorem finishBatch_stored_congr (env : Env) (s s' : PState)
    (hd : s'.documents = s.documents) (hst : s'.stored = s.stored)
    (hc : s'.crashed = s.crashed) :
    (finishBatch env s').stored = (finishBatch env s).stored := by
  unfold finishBatch
  by_cases h1 : s.crashed = true <;> by_cases h2 : s.documents.isEmpty = true <;>
    by_cases h3 : env.embedInitOk = true <;> by_cases h4 : env.vectorInitOk = true <;>
      by_cases h5 : env.addDocsOk = true <;>
        simp [h1, h2, h3, h4, h5, hd, hst, hc]

/-- Chunking preserves each document's metadata onto all of its chunks. -/
theorem splitDocuments_metadata (ds : List Doc) :
    ∀ d ∈ splitDocuments ds, ∃ d0 ∈ ds, d.metadata = d0.metadata := by
  intro d hd
  simp only [splitDocuments, List.mem_flatMap] at hd
  obtain ⟨d0, hd0, hmem⟩ := hd
  simp only [splitDoc, List.mem_map] at hmem
  obtain ⟨c, _, hc⟩ := hmem
  exact ⟨d0, hd0, by rw [← hc]⟩

/-! Claim theorems. -/

/-- C5: for every loaded document, the chunker produces chunks such that
each chunk is at most 2500 characters long and, for any two consecutive
chunks from the same document, the last 250 characters of chunk `i` equal
the first 250 characters of chunk `i+1` (except at the final chunk).
(The chunker is modelled from the spec; `RecursiveCharacterTextSplitter` is
third-party code not present in `src/`.) -/
theorem chunker_bound_and_overlap (d : Doc) :
    (∀ c ∈ chunkText d.pageContent, c.length ≤ 2500) ∧
    (∀ i : Nat, i + 1 < (chunkText d.pageContent).length →
      lastN 250 ((chunkText d.pageContent).getD i []) =
        ((chunkText d.pageContent).getD (i + 1) []).take 250) :=
  ⟨chunkTextF_length_le d.pageContent.length d.pageContent,
   fun i hi => chunkTextF_overlap d.pageContent.length d.pageContent (Nat.le_refl _) i hi⟩

/-- Witness for C5 on a concrete 2600-character document: two chunks, the
first chunk is within the bound, and the 250-character overlap holds between
chunks 0 and 1. -/
theorem chunker_bound_and_overlap_witness :
    (bigText.take 2500 ∈ chunkText bigText ∧ (bigText.take 2500).length ≤ 2500) ∧
    (0 + 1 < (chunkText bigText).length ∧
      lastN 250 ((chunkText bigText).getD 0 []) =
        ((chunkText bigText).getD 1 []).take 250) := by
  have hb : bigText.length = 2600 := List.length_replicate ..
  have he : chunkText bigText = bigText.take 2500 :: chunkText (bigText.drop 2250) := by
    rw [chunkText_eq, if_neg (by rw [hb]; omega)]
  have hd : (bigText.drop 2250).length = 350 := by rw [List.length_drop, hb]
  have hne : bigText.drop 2250 ≠ [] := by
    intro h
    rw [h] at hd
    simp at hd
  have he2 : chunkText (bigText.drop 2250) = [bigText.drop 2250] := by
    rw [chunkText_eq, if_pos (by rw [hd]; omega)]
    simp [hne]
  have hlen : (chunkText bigText).length = 2 := by rw [he, he2]; rfl
  have hmem : bigText.take 2500 ∈ chunkText bigText := by
    rw [he]
    exact List.mem_cons_self ..
  have hi : 0 + 1 < (chunkText bigText).length := by omega
  exact ⟨⟨hmem, (chunker_bound_and_overlap { pageContent := bigText, metadata := [] }).1
      (bigText.take 2500) hmem⟩,
    ⟨hi, (chunker_bound_and_overlap { pageContent := bigText, metadata := [] }).2 0 hi⟩⟩

/-- C1 counterexample: two byte-identical uploads under different filenames
are both ingested — the second is not reported as a duplicate and its chunk
is written to the vector collection a second time. -/
theorem dup_diff_name_counterexample :
    Ev.dupSkip "b.txt" ∉ (runApp envOk [] [fileA, fileB]).events ∧
    (∃ d ∈ (runApp envOk [] [fileA, fileB]).stored,
      getMeta "filename" d.metadata = some "b.txt") := by decide

/-- C1 (amended): for byte-identical files uploaded in sequence under the
SAME filename, the second upload is detected as a duplicate — its only
effect on the run is the duplicate warning — and the chunks written to the
vector collection are exactly those of a run without the second upload. -/
theorem dup_same_name_skipped (env : Env) (prior : List MetaRec)
    (f1 f2 : UploadedFile) (k : LoaderKind) (docs : List Doc)
    (hk : pickLoader f1.type = some k)
    (hl : env.load k f1 = LoadResult.ok docs)
    (hn : f2.name = f1.name) (hc : f2.content = f1.content) :
    (processFiles env (initState prior) [f1, f2] =
      { processFile env (initState prior) f1 with
        events := (processFile env (initState prior) f1).events ++ [Ev.dupSkip f2.name] }) ∧
    (runApp env prior [f1, f2]).stored = (runApp env prior [f1]).stored := by
  have hcrash : (processFile env (initState prior) f1).crashed = false := by
    by_cases hd : isDuplicate (initState prior).records f1.name (sha256Hex f1.content) = true
    · rw [processFile_dup env (initState prior) f1 hd]
      rfl
    · rw [processFile_ok env (initState prior) f1 k docs
        (Bool.not_eq_true _ ▸ hd) hk hl]
      rfl
  have hdup : isDuplicate (processFile env (initState prior) f1).records
      f2.name (sha256Hex f2.content) = true := by
    rw [hn, hc]
    by_cases hd : isDuplicate (initState prior).records f1.name (sha256Hex f1.content) = true
    · rw [processFile_dup env (initState prior) f1 hd]
      exact hd
    · rw [processFile_ok env (initState prior) f1 k docs (Bool.not_eq_true _ ▸ hd) hk hl]
      simp [isDuplicate, List.any_append]
  have hloop : processFiles env (initState prior) [f1, f2] =
      { processFile env (initState prior) f1 with
        events := (processFile env (initState prior) f1).events ++ [Ev.dupSkip f2.name] } := by
    rw [processFiles_cons_step env (initState prior) f1 [f2] hcrash, processFiles_one,
      processFile_dup env (processFile env (initState prior) f1) f2 hdup]
  refine ⟨hloop, ?_⟩
  have h2 : runApp env prior [f1, f2] =
      finishBatch env (processFiles env (initState prior) [f1, f2]) := by
    simp [runApp]
  have h1 : runApp env prior [f1] =
      finishBatch env (processFile env (initState prior) f1) := by
    simp [runApp, processFiles_one]
  rw [h2, h1, hloop]
  exact finishBatch_stored_congr env (processFile env (initState prior) f1) _ rfl rfl rfl

/-- Witness for C1's amended theorem: uploading `fileA` twice, the run
stores exactly what a single upload of `fileA` stores. -/
theorem dup_same_name_skipped_witness :
    pickLoader fileA.type = some LoaderKind.textLoader ∧
    envOk.load LoaderKind.textLoader fileA =
      LoadResult.ok [{ pageContent := ['x'], metadata := [("source", "tmp")] }] ∧
    fileA.name = fileA.name ∧ fileA.content = fileA.content ∧
    (runApp envOk [] [fileA, fileA]).stored = (runApp envOk [] [fileA]).stored :=
  ⟨rfl, rfl, rfl, rfl,
    (dup_same_name_skipped envOk [] fileA fileA LoaderKind.textLoader
      [{ pageContent := ['x'], metadata := [("source", "tmp")] }] rfl rfl rfl rfl).2⟩

/-- C2 counterexample: with a failing `add_documents`, the fingerprint of
`fileA` is nevertheless recorded in the ingestion-record store — the record
exists although nothing was written to the vector collection — refuting
"recorded only after successful storage, never when storage fails". -/
theorem fingerprint_before_storage_counterexample :
    (∃ r ∈ (runApp envNoStore [] [fileA]).records,
      r.filename = fileA.name ∧ r.file_hash = sha256Hex fileA.content) ∧
    Ev.storeError ∈ (runApp envNoStore [] [fileA]).events ∧
    (runApp envNoStore [] [fileA]).stored = [] := by decide

/-- C2 (amended): the duplicate-filter check itself is read-only — on a hit
the state changes only by the warning — and the fingerprint of a processed
file is recorded as soon as its documents load successfully, before the
vector-store write and regardless of whether that write later succeeds (the
environment, hence the `add_documents` outcome, is arbitrary). -/
theorem dup_check_readonly_fingerprint_on_load (env : Env) (prior : List MetaRec)
    (f : UploadedFile) (k : LoaderKind) (docs : List Doc)
    (hk : pickLoader f.type = some k) (hl : env.load k f = LoadResult.ok docs)
    (hnd : isDuplicate prior f.name (sha256Hex f.content) = false) :
    (∀ s : PState, isDuplicate s.records f.name (sha256Hex f.content) = true →
      processFile env s f = { s with events := s.events ++ [Ev.dupSkip f.name] }) ∧
    (∃ r ∈ (runApp env prior [f]).records,
      r.filename = f.name ∧ r.file_hash = sha256Hex f.content) := by
  constructor
  · intro s hdv
    exact processFile_dup env s f hdv
  · have h1 : runApp env prior [f] = finishBatch env (processFile env (initState prior) f) := by
      simp [runApp, processFiles_one]
    rw [h1, (finishBatch_preserves env (processFile env (initState prior) f)).2.1,
      processFile_ok env (initState prior) f k docs hnd hk hl]
    exact ⟨{ filename := f.name,
             file_hash := sha256Hex f.content,
             upload_date := env.now,
             collection_name := "rag_default" }, by simp, rfl, rfl⟩

/-- Witness for C2's amended theorem: the duplicate check on a state already
holding `fileA`'s record only warns, and after a run whose vector-store
write fails the fingerprint is recorded. -/
theorem dup_check_readonly_fingerprint_on_load_witness :
    pickLoader fileA.type = some LoaderKind.textLoader ∧
    envNoStore.load LoaderKind.textLoader fileA =
      LoadResult.ok [{ pageContent := ['x'], metadata := [("source", "tmp")] }] ∧
    isDuplicate [] fileA.name (sha256Hex fileA.content) = false ∧
    isDuplicate (initState [recA]).records fileA.name (sha256Hex fileA.content) = true ∧
    processFile envNoStore (initState [recA]) fileA =
      { initState [recA] with
        events := (initState [recA]).events ++ [Ev.dupSkip fileA.name] } ∧
    (∃ r ∈ (runApp envNoStore [] [fileA]).records,
      r.filename = fileA.name ∧ r.file_hash = sha256Hex fileA.content) := by
  refine ⟨rfl, rfl, rfl, by decide, ?_, ?_⟩
  · exact (dup_check_readonly_fingerprint_on_load envNoStore [] fileA LoaderKind.textLoader
      [{ pageContent := ['x'], metadata := [("source", "tmp")] }] rfl rfl rfl).1
      (initState [recA]) (by decide)
  · exact (dup_check_readonly_fingerprint_on_load envNoStore [] fileA LoaderKind.textLoader
      [{ pageContent := ['x'], metadata := [("source", "tmp")] }] rfl rfl rfl).2

/-- C3 counterexample: a batch of a malformed file followed by a good file —
the loader exception is NOT caught: the script aborts and the second file is
never processed (its temporary file is never even created). -/
theorem load_error_aborts_counterexample :
    (runApp envBadFile [] [fileBad, fileA]).crashed = true ∧
    Ev.tmpCreate "a.txt" ∉ (runApp envBadFile [] [fileBad, fileA]).events ∧
    Ev.dupSkip "a.txt" ∉ (runApp envBadFile [] [fileBad, fileA]).events ∧
    Ev.noDocsWarn ∉ (runApp envBadFile [] [fileBad, fileA]).events := by decide

/-- C3 (amended): a loader failure on a malformed file deletes the temporary
file (the `finally:`), then the exception propagates out of the loop
uncaught: the whole batch aborts and the remaining files are not processed. -/
theorem load_error_aborts_batch (env : Env) (s : PState) (f : UploadedFile)
    (k : LoaderKind) (rest : List UploadedFile)
    (hnd : isDuplicate s.records f.name (sha256Hex f.content) = false)
    (hk : pickLoader f.type = some k) (hl : env.load k f = LoadResult.err) :
    processFiles env s (f :: rest) = { s with
      events := s.events ++ [Ev.tmpCreate f.name, Ev.tmpDelete f.name, Ev.loadCrash f.name],
      crashed := true } := by
  rw [processFiles_cons_crash env s f rest
    (by rw [processFile_loadErr env s f k hnd hk hl])]
  exact processFile_loadErr env s f k hnd hk hl

/-- Witness for C3's amended theorem on the concrete malformed upload. -/
theorem load_error_aborts_batch_witness :
    isDuplicate (initState []).records fileBad.name (sha256Hex fileBad.content) = false ∧
    pickLoader fileBad.type = some LoaderKind.textLoader ∧
    envBadFile.load LoaderKind.textLoader fileBad = LoadResult.err ∧
    processFiles envBadFile (initState []) [fileBad, fileA] = { initState [] with
      events := (initState []).events ++
        [Ev.tmpCreate fileBad.name, Ev.tmpDelete fileBad.name, Ev.loadCrash fileBad.name],
      crashed := true } :=
  ⟨rfl, rfl, rfl,
    load_error_aborts_batch envBadFile (initState []) fileBad LoaderKind.textLoader
      [fileA] rfl rfl rfl⟩

/-- C4: when initialization of the embedding service fails, no vector-store
write occurs for any file of the batch, and if the run reaches the embedding
step (some documents loaded, no earlier abort) it halts immediately after
reporting the embedding error: the trace ends with the error followed by the
stop. -/
theorem embed_fail_halts (env : Env) (prior : List MetaRec) (files : List UploadedFile)
    (he : env.embedInitOk = false) :
    (∀ n : Nat, Ev.vectorAdd n ∉ (runApp env prior files).events) ∧
    ((runApp env prior files).documents ≠ [] →
      (runApp env prior files).crashed = false →
      (runApp env prior files).events.reverse.take 2 = [Ev.halt, Ev.embedInitError] ∧
      (runApp env prior files).halted = true) := by
  cases files with
  | nil =>
      constructor
      · intro n
        simp [runApp]
      · intro hdoc _
        simp [runApp, initState] at hdoc
  | cons f fs =>
      have hrun : runApp env prior (f :: fs) =
          finishBatch env (processFiles env (initState prior) (f :: fs)) := by
        simp [runApp]
      obtain ⟨t, ht, hft⟩ := processFiles_events_file env (f :: fs) (initState prior)
      have hSev : ∀ n : Nat,
          Ev.vectorAdd n ∉ (processFiles env (initState prior) (f :: fs)).events := by
        intro n hmem
        rw [ht] at hmem
        simp only [initState, List.nil_append] at hmem
        have := hft _ hmem
        simp [fileEv] at this
      rw [hrun]
      by_cases hcr : (processFiles env (initState prior) (f :: fs)).crashed = true
      · have hfb : finishBatch env (processFiles env (initState prior) (f :: fs)) =
            processFiles env (initState prior) (f :: fs) := by
          unfold finishBatch
          simp [hcr]
        rw [hfb]
        exact ⟨hSev, fun _ hc => absurd hcr (by simp [hc])⟩
      · by_cases hde : (processFiles env (initState prior) (f :: fs)).documents.isEmpty = true
        · have hfb : finishBatch env (processFiles env (initState prior) (f :: fs)) =
              { processFiles env (initState prior) (f :: fs) with
                events := (processFiles env (initState prior) (f :: fs)).events
                  ++ [Ev.noDocsWarn] } := by
            unfold finishBatch
            simp [hcr, hde]
          rw [hfb]
          constructor
          · intro n hmem
            rcases List.mem_append.mp hmem with hmem | hmem
            · exact hSev n hmem
            · simp at hmem
          · intro hdoc _
            exact absurd (List.isEmpty_iff.mp hde) hdoc
        · have hfb : finishBatch env (processFiles env (initState prior) (f :: fs)) =
              { processFiles env (initState prior) (f :: fs) with
                events := (processFiles env (initState prior) (f :: fs)).events
                  ++ [Ev.embedInitError, Ev.halt],
                halted := true } := by
            unfold finishBatch
            simp [hcr, hde, he]
          rw [hfb]
          constructor
          · intro n hmem
            rcases List.mem_append.mp hmem with hmem | hmem
            · exact hSev n hmem
            · simp at hmem
          · intro _ _
            constructor
            · simp
            · rfl

/-- Witness for C4 on a concrete run with a failing embedding service. -/
theorem embed_fail_halts_witness :
    envNoEmbed.embedInitOk = false ∧
    Ev.vectorAdd 1 ∉ (runApp envNoEmbed [] [fileA]).events ∧
    (runApp envNoEmbed [] [fileA]).documents ≠ [] ∧
    (runApp envNoEmbed [] [fileA]).crashed = false ∧
    (runApp envNoEmbed [] [fileA]).events.reverse.take 2 = [Ev.halt, Ev.embedInitError] ∧
    (runApp envNoEmbed [] [fileA]).halted = true := by
  refine ⟨rfl, (embed_fail_halts envNoEmbed [] [fileA] rfl).1 1, by decide, by decide, ?_, ?_⟩
  · exact ((embed_fail_halts envNoEmbed [] [fileA] rfl).2 (by decide) (by decide)).1
  · exact ((embed_fail_halts envNoEmbed [] [fileA] rfl).2 (by decide) (by decide)).2

/-- C6: a non-duplicate file with an unsupported declared MIME type is
reported as unsupported, contributes no documents (hence no chunks or
embeddings), and the loop continues with the remaining files. -/
theorem unsupported_type_reported_continue (env : Env) (s : PState) (f : UploadedFile)
    (rest : List UploadedFile)
    (hnd : isDuplicate s.records f.name (sha256Hex f.content) = false)
    (hp : pickLoader f.type = none) (hcr : s.crashed = false) :
    processFile env s f = { s with events := s.events ++
      [Ev.tmpCreate f.name, Ev.unsupportedWarn f.type, Ev.tmpDelete f.name] } ∧
    processFiles env s (f :: rest) = processFiles env
      { s with events := s.events ++
        [Ev.tmpCreate f.name, Ev.unsupportedWarn f.type, Ev.tmpDelete f.name] } rest := by
  have h1 := processFile_unsupported env s f hnd hp
  refine ⟨h1, ?_⟩
  rw [processFiles_cons_step env s f rest (by rw [h1]; exact hcr), h1]

/-- Witness for C6: the `application/zip` upload only warns and the batch
moves on to the next file. -/
theorem unsupported_type_reported_continue_witness :
    isDuplicate (initState []).records fileZip.name (sha256Hex fileZip.content) = false ∧
    pickLoader fileZip.type = none ∧
    (initState []).crashed = false ∧
    processFiles envOk (initState []) [fileZip, fileA] = processFiles envOk
      { initState [] with events := (initState []).events ++
        [Ev.tmpCreate fileZip.name, Ev.unsupportedWarn fileZip.type,
          Ev.tmpDelete fileZip.name] } [fileA] :=
  ⟨rfl, rfl, rfl,
    (unsupported_type_reported_continue envOk (initState []) fileZip [fileA] rfl rfl rfl).2⟩

/-- C7: for every non-duplicate file, whatever the environment does, the
iteration's trace starts with the temporary-file creation (before parsing)
and contains its deletion — on the success path, the unsupported path and
the parser-failure path alike. -/
theorem tmp_file_scoped_cleanup (env : Env) (s : PState) (f : UploadedFile)
    (hnd : isDuplicate s.records f.name (sha256Hex f.content) = false) :
    ∃ mid, (processFile env s f).events = s.events ++ Ev.tmpCreate f.name :: mid ∧
      Ev.tmpDelete f.name ∈ mid := by
  cases hp : pickLoader f.type with
  | none =>
      rw [processFile_unsupported env s f hnd hp]
      exact ⟨[Ev.unsupportedWarn f.type, Ev.tmpDelete f.name], rfl, by simp⟩
  | some k =>
      cases hl : env.load k f with
      | err =>
          rw [processFile_loadErr env s f k hnd hp hl]
          exact ⟨[Ev.tmpDelete f.name, Ev.loadCrash f.name], rfl, by simp⟩
      | ok docs =>
          rw [processFile_ok env s f k docs hnd hp hl]
          exact ⟨[Ev.metaInsert f.name (sha256Hex f.content), Ev.tmpDelete f.name],
            rfl, by simp⟩

/-- Witness for C7, exercised on the parser-failure path. -/
theorem tmp_file_scoped_cleanup_witness :
    isDuplicate (initState []).records fileBad.name (sha256Hex fileBad.content) = false ∧
    (∃ mid, (processFile envBadFile (initState []) fileBad).events =
        (initState []).events ++ Ev.tmpCreate fileBad.name :: mid ∧
      Ev.tmpDelete fileBad.name ∈ mid) :=
  ⟨rfl, tmp_file_scoped_cleanup envBadFile (initState []) fileBad rfl⟩

/-- C8: every chunk written to the vector collection carries in its metadata
the originating file's filename and declared type exactly as supplied at
upload — chunking and storage leave them unchanged. -/
theorem stored_metadata_roundtrip (env : Env) (prior : List MetaRec)
    (files : List UploadedFile) :
    ∀ d ∈ (runApp env prior files).stored,
      ∃ f ∈ files, getMeta "filename" d.metadata = some f.name ∧
        getMeta "file_type" d.metadata = some f.type := by
  intro d hd
  cases files with
  | nil => simp [runApp, initState] at hd
  | cons f fs =>
      have hrun : runApp env prior (f :: fs) =
          finishBatch env (processFiles env (initState prior) (f :: fs)) := by
        simp [runApp]
      rw [hrun] at hd
      rcases finishBatch_stored_sub env (processFiles env (initState prior) (f :: fs)) d hd
        with h | h
      · rw [processFiles_stored env (f :: fs) (initState prior)] at h
        simp [initState] at h
      · obtain ⟨d0, hd0, hmeta⟩ :=
          splitDocuments_metadata (processFiles env (initState prior) (f :: fs)).documents d h
        rcases processFiles_documents_meta env (f :: fs) (initState prior) d0 hd0 with h0 | h0
        · simp [initState] at h0
        · obtain ⟨g, hg, hmeta0⟩ := h0
          exact ⟨g, hg, by rw [hmeta]; exact hmeta0.1, by rw [hmeta]; exact hmeta0.2⟩

/-- Witness for C8 on the chunk actually stored by a concrete run. -/
theorem stored_metadata_roundtrip_witness :
    wDoc ∈ (runApp envOk [] [fileA]).stored ∧
    (∃ f ∈ [fileA], getMeta "filename" wDoc.metadata = some f.name ∧
      getMeta "file_type" wDoc.metadata = some f.type) :=
  ⟨by decide, stored_metadata_roundtrip envOk [] [fileA] wDoc (by decide)⟩

/-- C9 counterexample: a batch whose only file fails to load stores nothing,
yet the "No new documents were processed" summary is never emitted — the
script aborts with the uncaught exception instead. -/
theorem no_summary_on_crash_counterexample :
    (runApp envBadFile [] [fileBad]).stored = [] ∧
    (runApp envBadFile [] [fileBad]).documents = [] ∧
    (runApp envBadFile [] [fileBad]).crashed = true ∧
    Ev.noDocsWarn ∉ (runApp envBadFile [] [fileBad]).events := by decide

/-- C9 (amended): a non-empty batch that completes the per-file loop without
an uncaught loader exception and accumulates no documents (every file
skipped as duplicate or unsupported) does emit the explicit "no documents
processed" summary; a loader crash, however, aborts the run without it. -/
theorem no_docs_summary (env : Env) (prior : List MetaRec) (files : List UploadedFile)
    (hne : files ≠ [])
    (hcr : (runApp env prior files).crashed = false)
    (hdoc : (runApp env prior files).documents = []) :
    Ev.noDocsWarn ∈ (runApp env prior files).events := by
  cases files with
  | nil => exact absurd rfl hne
  | cons f fs =>
      have hrun : runApp env prior (f :: fs) =
          finishBatch env (processFiles env (initState prior) (f :: fs)) := by
        simp [runApp]
      rw [hrun] at hcr hdoc ⊢
      have hcrS : (processFiles env (initState prior) (f :: fs)).crashed = false := by
        rw [← (finishBatch_preserves env (processFiles env (initState prior) (f :: fs))).2.2]
        exact hcr
      have hdocS : (processFiles env (initState prior) (f :: fs)).documents = [] := by
        rw [← (finishBatch_preserves env (processFiles env (initState prior) (f :: fs))).1]
        exact hdoc
      have hfb : finishBatch env (processFiles env (initState prior) (f :: fs)) =
          { processFiles env (initState prior) (f :: fs) with
            events := (processFiles env (initState prior) (f :: fs)).events
              ++ [Ev.noDocsWarn] } := by
        unfold finishBatch
        simp [hcrS, hdocS]
      rw [hfb]
      simp

/-- Witness for C9's amended theorem: a batch consisting of one unsupported
file emits the summary. -/
theorem no_docs_summary_witness :
    ([fileZip] ≠ ([] : List UploadedFile)) ∧
    (runApp envOk [] [fileZip]).crashed = false ∧
    (runApp envOk [] [fileZip]).documents = [] ∧
    Ev.noDocsWarn ∈ (runApp envOk [] [fileZip]).events :=
  ⟨by decide, by decide, by decide,
    no_docs_summary envOk [] [fileZip] (by decide) (by decide) (by decide)⟩

/-- C10: when the batch accumulates no documents, the `if documents:` guard
keeps the run away from the tail: the embedding model is never initialized,
the vector store is never initialized, and no vector-store write happens. -/
theorem no_docs_no_embed_no_store (env : Env) (prior : List MetaRec)
    (files : List UploadedFile)
    (hdoc : (runApp env prior files).documents = []) :
    Ev.embedInit ∉ (runApp env prior files).events ∧
    Ev.vectorInit ∉ (runApp env prior files).events ∧
    ∀ n : Nat, Ev.vectorAdd n ∉ (runApp env prior files).events := by
  cases files with
  | nil =>
      refine ⟨by simp [runApp], by simp [runApp], fun n => by simp [runApp]⟩
  | cons f fs =>
      have hrun : runApp env prior (f :: fs) =
          finishBatch env (processFiles env (initState prior) (f :: fs)) := by
        simp [runApp]
      rw [hrun] at hdoc ⊢
      have hdocS : (processFiles env (initState prior) (f :: fs)).documents = [] := by
        rw [← (finishBatch_preserves env (processFiles env (initState prior) (f :: fs))).1]
        exact hdoc
      obtain ⟨t, ht, hft⟩ := processFiles_events_file env (f :: fs) (initState prior)
      have hSev : ∀ e, e ∈ (processFiles env (initState prior) (f :: fs)).events →
          fileEv e = true := by
        intro e he
        rw [ht] at he
        simp only [initState, List.nil_append] at he
        exact hft e he
      by_cases hcr : (processFiles env (initState prior) (f :: fs)).crashed = true
      · have hfb : finishBatch env (processFiles env (initState prior) (f :: fs)) =
            processFiles env (initState prior) (f :: fs) := by
          unfold finishBatch
          simp [hcr]
        rw [hfb]
        refine ⟨fun h => ?_, fun h => ?_, fun n h => ?_⟩
        · simpa [fileEv] using hSev _ h
        · simpa [fileEv] using hSev _ h
        · simpa [fileEv] using hSev _ h
      · have hfb : finishBatch env (processFiles env (initState prior) (f :: fs)) =
            { processFiles env (initState prior) (f :: fs) with
              events := (processFiles env (initState prior) (f :: fs)).events
                ++ [Ev.noDocsWarn] } := by
          unfold finishBatch
          simp [hcr, hdocS]
        rw [hfb]
        refine ⟨fun h => ?_, fun h => ?_, fun n h => ?_⟩
        all_goals
          rcases List.mem_append.mp h with h | h
        · simpa [fileEv] using hSev _ h
        · simp at h
        · simpa [fileEv] using hSev _ h
        · simp at h
        · simpa [fileEv] using hSev _ h
        · simp at h

/-- Witness for C10 on a batch consisting of one duplicate file. -/
theorem no_docs_no_embed_no_store_witness :
    (runApp envOk [recA] [fileA]).documents = [] ∧
    Ev.embedInit ∉ (runApp envOk [recA] [fileA]).events ∧
    Ev.vectorInit ∉ (runApp envOk [recA] [fileA]).events ∧
    Ev.vectorAdd 1 ∉ (runApp envOk [recA] [fileA]).events :=
  ⟨by decide,
    (no_docs_no_embed_no_store envOk [recA] [fileA] (by decide)).1,
    (no_docs_no_embed_no_store envOk [recA] [fileA] (by decide)).2.1,
    (no_docs_no_embed_no_store envOk [recA] [fileA] (by decide)).2.2 1⟩

end StreamlitRag
